import Mathlib

/-
Verification development for `get_apt_groups_ttp.py`, a script that searches
APT-group intelligence in two sources (the MITRE `enterprise-attack.json`
knowledge base and the `APT Groups and Operations.xlsx` tracker spreadsheet),
reports matches to spreadsheet files, and downloads per-group TTP layer files.

Shallow embedding conventions:
- Python strings are `List Char` (`Str`); `str.lower` is `lowerStr`,
  Python's substring test `a in b` is `inStr a b`.
- Python dict records are structures; a dict key that may be absent is an
  `Option` field (`none` models the key being absent, so that reading it
  raises `KeyError`).
- A Python exception that escapes to the enclosing blanket
  `try/except Exception` is modelled with `Except Unit`; the handler merely
  prints, so an escaped exception ends the whole operation.
- pandas `Series.str.contains(word, case=False)` yields a three-valued
  mask entry per cell: `NaN` for a `NaN` cell, otherwise a Boolean. The
  pattern argument is a regex; the Boolean is modelled as a case-insensitive
  substring test, faithful exactly for keywords free of regex metacharacters
  (`literalPat`), and theorems about tracker match content carry that
  hypothesis. The or of the two mask columns rescues a one-sided `NaN`; a
  row with both searched cells missing leaves `NaN` in the mask, and
  `data[mask]` then raises `ValueError` into the blanket handler.
- pandas `sort_values` is modelled by an insertion sort on the same key;
  `NaN` keys sort last (`na_position` default).
- Writing a report spreadsheet is modelled by the `report` constructor of the
  outcome type: `report rows` means the file was written with exactly those
  rows, `notFound` means the "not found" message was printed and no file was
  written, `errorPrinted` means an exception was caught and printed.
-/

/-- Python strings, modelled as lists of characters. -/
abbrev Str := List Char

/-- Python `str.lower()` (character-wise lowercasing). -/
def lowerStr (s : Str) : Str := s.map Char.toLower

/-- Helper for `inStr`: does `hay` start with `n`? -/
def startsStr : Str → Str → Bool
  | [], _ => true
  | _ :: _, [] => false
  | a :: as, b :: bs => a = b && startsStr as bs

/-- Python `needle in hay` on strings: contiguous substring containment. -/
def inStr : Str → Str → Bool
  | n, [] => n.isEmpty
  | n, c :: cs => startsStr n (c :: cs) || inStr n cs

/-- Case-insensitive substring test: `word.lower() in text.lower()`
(line 170 of the source), also the model of
`Series.str.contains(word, case=False)` (line 222). -/
def containsCI (word text : Str) : Bool := inStr (lowerStr word) (lowerStr text)

/-- Ordinal (code-point, case-sensitive) lexicographic order on strings,
the comparison pandas `sort_values` uses on string columns. -/
def strLe : Str → Str → Bool
  | [], _ => true
  | _ :: _, [] => false
  | a :: as, b :: bs => if a = b then strLe as bs else decide (a < b)

/-- Insert into a sorted list, keeping `le`-sortedness. -/
def insertSorted {α : Type} (le : α → α → Bool) (a : α) : List α → List α
  | [] => [a]
  | b :: bs => if le a b then a :: b :: bs else b :: insertSorted le a bs

/-- Insertion sort by a boolean comparison; the model of pandas
`DataFrame.sort_values`. -/
def sortByLe {α : Type} (le : α → α → Bool) : List α → List α
  | [] => []
  | a :: as => insertSorted le a (sortByLe le as)

/-- Python `str.split(',')`. -/
def splitComma : Str → List Str
  | [] => [[]]
  | c :: rest =>
    if c = ',' then [] :: splitComma rest
    else
      match splitComma rest with
      | [] => [[c]]
      | h :: t => (c :: h) :: t

/-- Python `str.strip()`: drop whitespace from both ends. -/
def stripStr (s : Str) : Str :=
  ((s.dropWhile Char.isWhitespace).reverse.dropWhile Char.isWhitespace).reverse

/-- The keywords (`-k`) argument conversion of `parse_arguments`
(line 55 of the source): `[str.strip(i) for i in x.split(',')]`. -/
def parseKeywordArg (s : Str) : List Str := (splitComma s).map stripStr

/-- One group dict from `enterprise-attack.json`, as the script reads it.
`description` is `Option` because the key may be absent from the dict, in
which case `x['description']` raises `KeyError`. `external_references`
entries carry `(url, external_id)`. -/
structure MRecord where
  name : Str
  aliases : List Str
  description : Option Str
  external_references : List (Str × Str)
deriving DecidableEq, Repr

/-- One STIX object of `enterprise-attack.json` as inspected by
`get_all_groups_from_mitre` (lines 295-297): a declared `type` plus two flags
whose dict keys may be absent (`Option`), modelled as booleans, and the group
payload used downstream. -/
structure StixObject where
  type : Str
  x_mitre_deprecated : Option Bool
  revoked : Option Bool
  record : MRecord
deriving DecidableEq, Repr

/-- The string constant `'intrusion-set'`. -/
def intrusionSet : Str := "intrusion-set".toList

/-- The filter of `get_all_groups_from_mitre` (lines 295-297):
`x['type'] == 'intrusion-set' and not (("x_mitre_deprecated" in x and
x["x_mitre_deprecated"]) or ("revoked" in x and x["revoked"]))`. -/
def keepGroup (x : StixObject) : Bool :=
  decide (x.type = intrusionSet) &&
    !((x.x_mitre_deprecated.isSome && x.x_mitre_deprecated.getD false) ||
      (x.revoked.isSome && x.revoked.getD false))

/-- Modelled from the spec, for comparison with `keepGroup`: keep exactly the
objects "whose declared type marks them as a threat-actor/intrusion-set",
excluding "any object whose deprecated flag is present-and-true, or whose
revoked flag is present-and-true". -/
def specKeepGroup (x : StixObject) : Bool :=
  decide (x.type = intrusionSet) &&
    decide (x.x_mitre_deprecated ≠ some true) && decide (x.revoked ≠ some true)

/-- Embedding of `get_all_groups_from_mitre` (lines 292-298), the record
normalizer: a single `filter` over the document's object list. -/
def get_all_groups_from_mitre (objects : List StixObject) : List StixObject :=
  objects.filter keepGroup

/-- The per-record test of line 170, `word.lower() in x['description'].lower()`:
raises (`KeyError`) when the `description` key is absent. -/
def descTest (word : Str) (g : MRecord) : Except Unit Bool :=
  match g.description with
  | none => Except.error ()
  | some d => Except.ok (containsCI word d)

/-- Pure counterpart of `descTest` on records whose description is present;
an absent description counts as no match (used only to describe the value
`filterByDesc` returns when it does not raise). -/
def descBool (word : Str) (g : MRecord) : Bool :=
  match g.description with
  | none => false
  | some d => containsCI word d

/-- Embedding of `list(filter(lambda x: word.lower() in x['description'].lower(), groups))`
(line 170): the first record whose `description` key is absent makes the
whole traversal raise. -/
def filterByDesc (word : Str) : List MRecord → Except Unit (List MRecord)
  | [] => Except.ok []
  | g :: gs =>
    match descTest word g with
    | Except.error e => Except.error e
    | Except.ok b =>
      match filterByDesc word gs with
      | Except.error e => Except.error e
      | Except.ok rest => Except.ok (if b then g :: rest else rest)

/-- The keyword loop of `search_groups_from_mitre` (lines 168-172):
`result = []; for word in keywords: filtered = filter(...);
if filtered: result.extend(filtered)`. -/
def mitreMatches (groups : List MRecord) : List Str → Except Unit (List MRecord)
  | [] => Except.ok []
  | w :: ws =>
    match filterByDesc w groups with
    | Except.error e => Except.error e
    | Except.ok filtered =>
      match mitreMatches groups ws with
      | Except.error e => Except.error e
      | Except.ok rest => Except.ok (if filtered.isEmpty then rest else filtered ++ rest)

/-- Sort key used by line 176, `df.sort_values(by='name')`. -/
def nameLe (g h : MRecord) : Bool := strLe g.name h.name

/-- Outcome of `search_groups_from_mitre`: a written report file with its
rows, the "APT Groups not found." message (no file), or a printed exception
(no file). -/
inductive MitreOutcome
  | report (rows : List MRecord)
  | notFound
  | errorPrinted
deriving DecidableEq, Repr

/-- Embedding of `search_groups_from_mitre` (lines 154-194). Note line 176
evaluates `df.sort_values(by='name')` but discards the result (the sorted
frame is not assigned back), so the rows written to the report stay in match
order. -/
def search_groups_from_mitre (groups : List MRecord) (keywords : List Str) :
    MitreOutcome :=
  match mitreMatches groups keywords with
  | Except.error _ => MitreOutcome.errorPrinted
  | Except.ok result =>
    if result.isEmpty then MitreOutcome.notFound
    else MitreOutcome.report result

/-- One data row of a tracker sheet, projected to the four columns of
line 217; a `none` cell models a `NaN` (empty) spreadsheet cell. -/
structure TRow where
  commonName : Option Str
  toolset : Option Str
  targets : Option Str
  comment : Option Str
deriving DecidableEq, Repr

/-- One cell's entry of the `str.contains(word, case=False)` mask of
line 222, for a literal keyword: a `NaN` cell yields `NaN` (`none`), a
present cell yields the case-insensitive substring test. -/
def cellMask (word : Str) (cell : Option Str) : Option Bool :=
  match cell with
  | none => none
  | some s => some (containsCI word s)

/-- The `|` of the two mask columns at line 222 (pandas logical or on
object dtype): a `NaN` on one side is rescued by the other side's Boolean;
two `NaN`s stay `NaN`. -/
def orMask : Option Bool → Option Bool → Option Bool
  | some a, some b => some (a || b)
  | some a, none => some a
  | none, some b => some b
  | none, none => none

/-- One row's entry of the line-222 mask
`data['Targets'].str.contains(word, case=False) | data['Comment'].str.contains(word, case=False)`. -/
def rowMask (word : Str) (r : TRow) : Option Bool :=
  orMask (cellMask word r.targets) (cellMask word r.comment)

/-- The Boolean a row's mask entry carries when it is not `NaN`: the
selection predicate of the success path of `data[mask]`. (When both cells
are missing the mask entry is `NaN` and the program raises instead; this
derived predicate then defaults to false and is unused.) -/
def rowMatch (word : Str) (r : TRow) : Bool := (rowMask word r).getD false

/-- Model of `data[mask]` (line 222): pandas raises `ValueError` when the
mask still holds a `NaN` — that is, when some row's Targets and Comment are
both missing — and otherwise keeps the rows whose mask entry is True. -/
def maskFilter (word : Str) : List TRow → Except Unit (List TRow)
  | [] => Except.ok []
  | r :: rs =>
    match rowMask word r with
    | none => Except.error ()
    | some b =>
      match maskFilter word rs with
      | Except.error e => Except.error e
      | Except.ok rest => Except.ok (if b then r :: rest else rest)

/-- The keyword loop of lines 219-223: per keyword, concatenate the rows the
mask selects (`df_search = pd.concat([df_search, data[mask]])`); a raised
`ValueError` from `data[mask]` escapes the loop. -/
def sheetSearch (data : List TRow) : List Str → Except Unit (List TRow)
  | [] => Except.ok []
  | w :: ws =>
    match maskFilter w data with
    | Except.error e => Except.error e
    | Except.ok hits =>
      match sheetSearch data ws with
      | Except.error e => Except.error e
      | Except.ok rest => Except.ok (hits ++ rest)

/-- A physical tracker sheet: its rows top to bottom (banner row, column
header row, then data rows). -/
abbrev Sheet := List TRow

/-- Model of `pd.read_excel(filename, sheet_name=sheet, skiprows=1)`
(line 216): `skiprows=1` skips exactly one leading row (the banner), and the
next row is consumed as the column header, so the data rows are what remains. -/
def readSheet (s : Sheet) : List TRow := (s.drop 1).drop 1

/-- The sheet loop of lines 215-224 over an already-selected list of sheets:
`result = pd.concat([result, df_search])` per sheet, in sheet order; an
exception raised in any sheet escapes the loop. -/
def trackerLoop (keywords : List Str) : List Sheet → Except Unit (List TRow)
  | [] => Except.ok []
  | s :: rest =>
    match sheetSearch (readSheet s) keywords with
    | Except.error e => Except.error e
    | Except.ok hits =>
      match trackerLoop keywords rest with
      | Except.error e => Except.error e
      | Except.ok more => Except.ok (hits ++ more)

/-- All pre-sort tracker matches: line 215 iterates `sheet_names[1:10]`, the
2nd through 10th sheets (1-indexed). -/
def trackerMatches (wb : List Sheet) (keywords : List Str) :
    Except Unit (List TRow) :=
  trackerLoop keywords ((wb.drop 1).take 9)

/-- Sort key of line 226, `result.sort_values(by='Common Name')`; a `NaN`
common name sorts last (pandas default `na_position='last'`). -/
def rowLe (r s : TRow) : Bool :=
  match r.commonName, s.commonName with
  | none, none => true
  | none, some _ => false
  | some _, none => true
  | some x, some y => strLe x y

/-- The placeholder string of line 227. -/
def dash : Str := ['-']

/-- Line 227, `result.fillna('-')`: replace every `NaN` cell with `'-'`. -/
def fillDash (r : TRow) : TRow :=
  TRow.mk (some (r.commonName.getD dash)) (some (r.toolset.getD dash))
    (some (r.targets.getD dash)) (some (r.comment.getD dash))

/-- Outcome of `search_groups_from_tracker`: a written report file with its
rows, the "APT Groups not found." message (no file), or a printed exception
(no file, no message). -/
inductive TrackerOutcome
  | report (rows : List TRow)
  | notFound
  | errorPrinted
deriving DecidableEq, Repr

/-- Embedding of `search_groups_from_tracker` (lines 197-244): aggregate the
in-range sheets; a raised exception reaches the blanket handler of line 243,
which prints it and abandons the search. Otherwise, if anything matched,
sort by common name (line 226, assigned back this time), fill missing cells
with `'-'` (line 227) and write the report; if nothing matched, print
"not found" and write nothing. -/
def search_groups_from_tracker (wb : List Sheet) (keywords : List Str) :
    TrackerOutcome :=
  match trackerMatches wb keywords with
  | Except.error _ => TrackerOutcome.errorPrinted
  | Except.ok result =>
    if result.isEmpty then TrackerOutcome.notFound
    else TrackerOutcome.report ((sortByLe rowLe result).map fillDash)

/-- The alias test of line 265:
`apt_alias.lower() in [str.lower(i) for i in x['aliases']]`. -/
def aliasHit (al : Str) (g : MRecord) : Bool :=
  (g.aliases.map lowerStr).contains (lowerStr al)

/-- Lines 265-267: filter the groups by `aliasHit` and take the first match
(`apt_group[0]`) if any. -/
def resolveAlias (groups : List MRecord) (al : Str) : Option MRecord :=
  (groups.filter (aliasHit al)).head?

/-- Line 269: `f"{group_id}-enterprise-layer.json"`. -/
def layerName (gid : Str) : Str := gid ++ "-enterprise-layer.json".toList

/-- Observable per-alias events of `get_groups_ttps_from_mitre`: a JSON
downloaded and written for an alias, a "Group not found" message for an
alias, or an exception caught and printed (which ends the whole loop). -/
inductive TtpEvent
  | downloaded (al : Str)
  | notFound (al : Str)
  | errorPrinted
deriving DecidableEq, Repr

/-- Embedding of `get_groups_ttps_from_mitre` (lines 247-279). `fetch`
models lines 271-273 (the HTTP GET plus the file write) for a given URL;
`Except.error` means one of them raised. The whole alias loop sits inside a
single `try`, so a raised exception (missing `external_references[0]`, or a
failed download/write) aborts the remaining aliases; a resolution miss only
prints and continues. -/
def get_groups_ttps_from_mitre (fetch : Str → Except Unit Unit)
    (groups : List MRecord) : List Str → List TtpEvent
  | [] => []
  | al :: rest =>
    match resolveAlias groups al with
    | some g =>
      match g.external_references.head? with
      | none => [TtpEvent.errorPrinted]
      | some (link, gid) =>
        match fetch (link ++ '/' :: layerName gid) with
        | Except.error _ => [TtpEvent.errorPrinted]
        | Except.ok _ =>
          TtpEvent.downloaded al :: get_groups_ttps_from_mitre fetch groups rest
    | none => TtpEvent.notFound al :: get_groups_ttps_from_mitre fetch groups rest

/-- A test that succeeds returns exactly the pure description predicate. -/
theorem descTest_ok {w : Str} {g : MRecord} {b : Bool}
    (h : descTest w g = Except.ok b) : descBool w g = b := by
  cases hd : g.description with
  | none => simp [descTest, hd] at h
  | some d =>
    simp [descTest, hd] at h
    simp [descBool, hd, h]

/-- The description filter, when it does not raise, computes the plain
filter by the description predicate. -/
theorem filterByDesc_ok_eq {w : Str} : ∀ {gs l : List MRecord},
    filterByDesc w gs = Except.ok l → l = List.filter (descBool w) gs := by
  intro gs
  induction gs with
  | nil =>
    intro l h
    simp [filterByDesc] at h
    subst h
    rfl
  | cons g gs ih =>
    intro l h
    unfold filterByDesc at h
    cases ht : descTest w g with
    | error e => rw [ht] at h; simp at h
    | ok b =>
      rw [ht] at h
      cases hf : filterByDesc w gs with
      | error e => rw [hf] at h; simp at h
      | ok rest =>
        rw [hf] at h
        simp at h
        rw [← h, ih hf, List.filter_cons, descTest_ok ht]

/-- When every record has its description key, the description filter does
not raise. -/
theorem filterByDesc_ok_of_all {w : Str} {gs : List MRecord}
    (h : ∀ g ∈ gs, g.description ≠ none) :
    filterByDesc w gs = Except.ok (List.filter (descBool w) gs) := by
  induction gs with
  | nil => rfl
  | cons a as ih =>
    have ha := h a (List.mem_cons_self a as)
    cases hd : a.description with
    | none => exact absurd hd ha
    | some d =>
      have hrest := ih (fun g hg => h g (List.mem_cons_of_mem a hg))
      unfold filterByDesc
      rw [hrest]
      simp [descTest, hd, List.filter_cons, descBool]

/-- Inversion for the keyword loop on a cons cell: a successful run splits
into the head keyword's filter and the tail run, concatenated in order. -/
theorem mitreMatches_cons_ok {groups : List MRecord} {w : Str} {ws : List Str}
    {res : List MRecord} (h : mitreMatches groups (w :: ws) = Except.ok res) :
    ∃ fil rest, filterByDesc w groups = Except.ok fil ∧
      mitreMatches groups ws = Except.ok rest ∧ res = fil ++ rest := by
  unfold mitreMatches at h
  cases hf : filterByDesc w groups with
  | error e => rw [hf] at h; simp at h
  | ok fil =>
    rw [hf] at h
    cases hm : mitreMatches groups ws with
    | error e => rw [hm] at h; simp at h
    | ok rest =>
      rw [hm] at h
      simp at h
      refine ⟨fil, rest, rfl, rfl, ?_⟩
      cases fil with
      | nil => simp at h; simp [h]
      | cons x xs => simp at h; exact h.symm

/-- Forward direction of the keyword-loop step. -/
theorem mitreMatches_cons_eq {groups : List MRecord} {w : Str} {ws : List Str}
    {fil rest : List MRecord} (hf : filterByDesc w groups = Except.ok fil)
    (hm : mitreMatches groups ws = Except.ok rest) :
    mitreMatches groups (w :: ws) = Except.ok (fil ++ rest) := by
  unfold mitreMatches
  rw [hf, hm]
  cases fil with
  | nil => simp
  | cons x xs => simp

/-- Multiplicity of an element in a filtered list. -/
theorem count_filter_eq {α : Type} [DecidableEq α] (p : α → Bool) (l : List α)
    (a : α) : (l.filter p).count a = if p a then l.count a else 0 := by
  by_cases hp : p a
  · rw [if_pos hp, List.count_filter hp]
  · rw [if_neg hp, List.count_eq_zero]
    intro hmem
    exact hp (List.mem_filter.mp hmem).2

/-- Multiplicity in a successful keyword-loop result: one copy per matching
keyword and per occurrence in the record collection. -/
theorem mitreMatches_ok_count {groups : List MRecord} {keywords : List Str}
    {res : List MRecord} (h : mitreMatches groups keywords = Except.ok res)
    (g : MRecord) :
    res.count g = (keywords.countP (fun w => descBool w g)) * groups.count g := by
  induction keywords generalizing res with
  | nil =>
    unfold mitreMatches at h
    simp at h
    subst h
    simp
  | cons w ws ih =>
    obtain ⟨fil, rest, hf, hm, hres⟩ := mitreMatches_cons_ok h
    subst hres
    rw [List.count_append, filterByDesc_ok_eq hf, count_filter_eq, ih hm,
      List.countP_cons]
    by_cases hb : descBool w g
    · simp [hb]; ring
    · simp [hb]

/-- A non-NaN row mask entry is exactly the selection predicate. -/
theorem rowMask_getD {w : Str} {r : TRow} {b : Bool}
    (h : rowMask w r = some b) : rowMatch w r = b := by
  simp [rowMatch, h]

/-- The mask filter, when it does not raise, computes the plain filter by
the row predicate. -/
theorem maskFilter_ok_eq {w : Str} : ∀ {data l : List TRow},
    maskFilter w data = Except.ok l → l = List.filter (rowMatch w) data := by
  intro data
  induction data with
  | nil =>
    intro l h
    simp [maskFilter] at h
    subst h
    rfl
  | cons r rs ih =>
    intro l h
    unfold maskFilter at h
    cases hm : rowMask w r with
    | none => rw [hm] at h; simp at h
    | some b =>
      rw [hm] at h
      cases hf : maskFilter w rs with
      | error e => rw [hf] at h; simp at h
      | ok rest =>
        rw [hf] at h
        simp at h
        rw [← h, ih hf, List.filter_cons, rowMask_getD hm]

/-- Inversion for the per-sheet keyword loop on a cons cell. -/
theorem sheetSearch_cons_ok {data : List TRow} {w : Str} {ws : List Str}
    {out : List TRow} (h : sheetSearch data (w :: ws) = Except.ok out) :
    ∃ hits rest, maskFilter w data = Except.ok hits ∧
      sheetSearch data ws = Except.ok rest ∧ out = hits ++ rest := by
  unfold sheetSearch at h
  cases hf : maskFilter w data with
  | error e => rw [hf] at h; simp at h
  | ok hits =>
    rw [hf] at h
    cases hs : sheetSearch data ws with
    | error e => rw [hs] at h; simp at h
    | ok rest =>
      rw [hs] at h
      simp at h
      exact ⟨hits, rest, rfl, rfl, h.symm⟩

/-- Forward direction of the per-sheet keyword-loop step. -/
theorem sheetSearch_cons_eq {data : List TRow} {w : Str} {ws : List Str}
    {hits rest : List TRow} (hf : maskFilter w data = Except.ok hits)
    (hs : sheetSearch data ws = Except.ok rest) :
    sheetSearch data (w :: ws) = Except.ok (hits ++ rest) := by
  unfold sheetSearch
  rw [hf, hs]

/-- Membership in a successful per-sheet keyword search. -/
theorem sheetSearch_ok_mem {data : List TRow} {keywords : List Str}
    {out : List TRow} (h : sheetSearch data keywords = Except.ok out)
    (r : TRow) :
    r ∈ out ↔ r ∈ data ∧ ∃ w ∈ keywords, rowMatch w r = true := by
  induction keywords generalizing out with
  | nil =>
    unfold sheetSearch at h
    simp at h
    subst h
    simp
  | cons w ws ih =>
    obtain ⟨hits, rest, hf, hs, hout⟩ := sheetSearch_cons_ok h
    subst hout
    rw [List.mem_append, maskFilter_ok_eq hf, List.mem_filter, ih hs]
    constructor
    · rintro (⟨hr, hb⟩ | ⟨hr, w', hw', hb⟩)
      · exact ⟨hr, w, List.mem_cons_self w ws, hb⟩
      · exact ⟨hr, w', List.mem_cons_of_mem w hw', hb⟩
    · rintro ⟨hr, w', hw', hb⟩
      rcases List.mem_cons.mp hw' with h1 | h2
      · subst h1; exact Or.inl ⟨hr, hb⟩
      · exact Or.inr ⟨hr, w', h2, hb⟩

/-- Multiplicity in a successful per-sheet keyword search. -/
theorem sheetSearch_ok_count {data : List TRow} {keywords : List Str}
    {out : List TRow} (h : sheetSearch data keywords = Except.ok out)
    (r : TRow) :
    out.count r = (keywords.countP (fun w => rowMatch w r)) * data.count r := by
  induction keywords generalizing out with
  | nil =>
    unfold sheetSearch at h
    simp at h
    subst h
    simp
  | cons w ws ih =>
    obtain ⟨hits, rest, hf, hs, hout⟩ := sheetSearch_cons_ok h
    subst hout
    rw [List.count_append, maskFilter_ok_eq hf, count_filter_eq, ih hs,
      List.countP_cons]
    by_cases hb : rowMatch w r
    · simp [hb]; ring
    · simp [hb]

/-- Inversion for the sheet loop on a cons cell. -/
theorem trackerLoop_cons_ok {keywords : List Str} {s : Sheet}
    {rest : List Sheet} {out : List TRow}
    (h : trackerLoop keywords (s :: rest) = Except.ok out) :
    ∃ hits more, sheetSearch (readSheet s) keywords = Except.ok hits ∧
      trackerLoop keywords rest = Except.ok more ∧ out = hits ++ more := by
  unfold trackerLoop at h
  cases hs : sheetSearch (readSheet s) keywords with
  | error e => rw [hs] at h; simp at h
  | ok hits =>
    rw [hs] at h
    cases hr : trackerLoop keywords rest with
    | error e => rw [hr] at h; simp at h
    | ok more =>
      rw [hr] at h
      simp at h
      exact ⟨hits, more, rfl, rfl, h.symm⟩

/-- Membership in a successful aggregation over a list of sheets. -/
theorem trackerLoop_ok_mem {keywords : List Str} : ∀ {sheets : List Sheet}
    {out : List TRow}, trackerLoop keywords sheets = Except.ok out → ∀ r,
    (r ∈ out ↔
      ∃ s ∈ sheets, r ∈ readSheet s ∧ ∃ w ∈ keywords, rowMatch w r = true) := by
  intro sheets
  induction sheets with
  | nil =>
    intro out h r
    unfold trackerLoop at h
    simp at h
    subst h
    simp
  | cons s rest ih =>
    intro out h r
    obtain ⟨hits, more, hs, hr2, hout⟩ := trackerLoop_cons_ok h
    subst hout
    rw [List.mem_append, sheetSearch_ok_mem hs, ih hr2 r]
    simp only [List.mem_cons]
    constructor
    · rintro (⟨hrr, hw⟩ | ⟨s', hs', hrr, hw⟩)
      · exact ⟨s, Or.inl rfl, hrr, hw⟩
      · exact ⟨s', Or.inr hs', hrr, hw⟩
    · rintro ⟨s', h1 | h2, hrr, hw⟩
      · subst h1; exact Or.inl ⟨hrr, hw⟩
      · exact Or.inr ⟨s', h2, hrr, hw⟩

/-- Taking the head of a filtered list is finding the first hit. -/
theorem head?_filter_eq_find? {α : Type} (p : α → Bool) (l : List α) :
    (l.filter p).head? = l.find? p := by
  induction l with
  | nil => rfl
  | cons a as ih =>
    by_cases h : p a <;> simp [List.filter_cons, List.find?_cons, h, ih]

/-- The empty string is a substring of everything (Python `'' in s`). -/
theorem inStr_nil (t : Str) : inStr [] t = true := by
  cases t <;> rfl

/-- The alias test is exact case-insensitive equality against the entries of
the aliases list. -/
theorem aliasHit_iff (al : Str) (g : MRecord) :
    aliasHit al g = true ↔ ∃ a ∈ g.aliases, lowerStr a = lowerStr al := by
  simp [aliasHit, List.contains, List.elem_iff, List.mem_map]

/-- The source filter of the normalizer agrees pointwise with the predicate
the spec describes. -/
theorem keepGroup_eq_specKeepGroup (x : StixObject) :
    keepGroup x = specKeepGroup x := by
  obtain ⟨t, od, orv, rec⟩ := x
  rcases od with _ | b <;> rcases orv with _ | c <;>
    simp [keepGroup, specKeepGroup, Bool.and_assoc]

/-- Success form of the spec predicate. -/
theorem specKeepGroup_iff (x : StixObject) :
    specKeepGroup x = true ↔
      x.type = intrusionSet ∧ x.x_mitre_deprecated ≠ some true ∧
        x.revoked ≠ some true := by
  simp [specKeepGroup, and_assoc]

/-- C5 (confirmed): for every raw document collection the normalizer returns
exactly the objects whose type is intrusion-set, whose deprecated flag is
not present-and-true and whose revoked flag is not present-and-true, and the
output preserves the source document order (the result is a sublist of the
input). -/
theorem C5_normalizer_exact (objects : List StixObject) :
    get_all_groups_from_mitre objects = objects.filter specKeepGroup
    ∧ List.Sublist (get_all_groups_from_mitre objects) objects
    ∧ (∀ x, x ∈ get_all_groups_from_mitre objects ↔
        x ∈ objects ∧ x.type = intrusionSet ∧
          x.x_mitre_deprecated ≠ some true ∧ x.revoked ≠ some true) := by
  refine ⟨?_, List.filter_sublist objects, ?_⟩
  · exact List.filter_congr (fun x _ => keepGroup_eq_specKeepGroup x)
  · intro x
    rw [get_all_groups_from_mitre, List.mem_filter, keepGroup_eq_specKeepGroup,
      specKeepGroup_iff]

/-- C3 (code_bug): line 176 computes `df.sort_values(by='name')` but never
assigns the result, so the rows written to the knowledge-base report stay in
match order instead of ascending `name` order: two matching records named
`b` then `a` are reported as `[b, a]`, although the sort the line was meant
to apply would give `[a, b]` (and `b` does not precede `a` in the ordinal
order). -/
theorem C3_mitre_report_unsorted :
    search_groups_from_mitre
        [MRecord.mk ['b'] [] (some ['x']) [], MRecord.mk ['a'] [] (some ['x']) []]
        [['x']]
      = MitreOutcome.report
          [MRecord.mk ['b'] [] (some ['x']) [], MRecord.mk ['a'] [] (some ['x']) []]
    ∧ sortByLe nameLe
        [MRecord.mk ['b'] [] (some ['x']) [], MRecord.mk ['a'] [] (some ['x']) []]
      = [MRecord.mk ['a'] [] (some ['x']) [], MRecord.mk ['b'] [] (some ['x']) []]
    ∧ nameLe (MRecord.mk ['b'] [] (some ['x']) [])
        (MRecord.mk ['a'] [] (some ['x']) []) = false := by
  refine ⟨by decide, by decide, by decide⟩

/-- C4 (counterexample): when the download for the resolvable alias `a1`
fails, the batch over `[a1, a2]` stops at the printed exception and never
attempts `a2`, even though `a2` alone would be processed (and reported as
not found). -/
theorem C4_download_failure_aborts_batch :
    get_groups_ttps_from_mitre (fun _ => Except.error ())
        [MRecord.mk ['g'] [['a', '1']] (some ['d']) [(['u'], ['i'])]]
        [['a', '1'], ['a', '2']] = [TtpEvent.errorPrinted]
    ∧ get_groups_ttps_from_mitre (fun _ => Except.error ())
        [MRecord.mk ['g'] [['a', '1']] (some ['d']) [(['u'], ['i'])]]
        [['a', '2']] = [TtpEvent.notFound ['a', '2']] := by
  refine ⟨by decide, by decide⟩

/-- C4 (amended): in the batch alias loop a resolution miss is reported
per-item and the remaining aliases are still attempted, but a raised
download or write failure for one alias reaches the blanket handler and
terminates the batch, so the aliases after it are not attempted. -/
theorem C4_per_alias_behavior (fetch : Str → Except Unit Unit)
    (groups : List MRecord) (al : Str) (rest : List Str) :
    (resolveAlias groups al = none →
      get_groups_ttps_from_mitre fetch groups (al :: rest)
        = TtpEvent.notFound al :: get_groups_ttps_from_mitre fetch groups rest)
    ∧ (∀ g link gid tl, resolveAlias groups al = some g →
        g.external_references = (link, gid) :: tl →
        fetch (link ++ '/' :: layerName gid) = Except.error () →
        get_groups_ttps_from_mitre fetch groups (al :: rest)
          = [TtpEvent.errorPrinted]) := by
  constructor
  · intro h
    simp only [get_groups_ttps_from_mitre, h]
  · intro g link gid tl h1 h2 h3
    simp only [get_groups_ttps_from_mitre, h1, h2, List.head?_cons, h3]

/-- Witness for C4: the amended theorem applied to a concrete unresolvable
alias, showing the batch continues past it. -/
theorem C4_per_alias_behavior_witness :
    get_groups_ttps_from_mitre (fun _ => Except.error ())
        [MRecord.mk ['g'] [['a', '1']] (some ['d']) [(['u'], ['i'])]]
        (['z'] :: [['a', '1']])
      = TtpEvent.notFound ['z'] ::
          get_groups_ttps_from_mitre (fun _ => Except.error ())
            [MRecord.mk ['g'] [['a', '1']] (some ['d']) [(['u'], ['i'])]]
            [['a', '1']] :=
  (C4_per_alias_behavior (fun _ => Except.error ())
      [MRecord.mk ['g'] [['a', '1']] (some ['d']) [(['u'], ['i'])]]
      ['z'] [['a', '1']]).1 (by decide)

/-- C6 (confirmed): the tracker aggregation reads exactly the 2nd through
10th sheets (1-indexed) and skips exactly one banner row of each sheet
before the column header row; its outcome is unchanged by any modification
of sheet 1 or of sheets past the 10th, and every result row comes from the
data region of an in-range sheet. -/
theorem C6_sheet_range (wb wb' : List Sheet) (keywords : List Str)
    (h : (wb.drop 1).take 9 = (wb'.drop 1).take 9) :
    search_groups_from_tracker wb keywords
        = search_groups_from_tracker wb' keywords
    ∧ (∀ res r, trackerMatches wb keywords = Except.ok res → r ∈ res →
        ∃ i, 1 ≤ i ∧ i ≤ 9 ∧ ∃ s, wb[i]? = some s ∧ r ∈ (s.drop 1).drop 1)
    ∧ (∀ banner header rows, readSheet (banner :: header :: rows) = rows) := by
  have ht : trackerMatches wb keywords = trackerMatches wb' keywords := by
    unfold trackerMatches
    rw [h]
  refine ⟨?_, ?_, fun _ _ _ => rfl⟩
  · unfold search_groups_from_tracker
    rw [ht]
  · intro res r htm hr
    rw [trackerMatches] at htm
    obtain ⟨s, hs, hrs, -⟩ := (trackerLoop_ok_mem htm r).mp hr
    obtain ⟨j, hj⟩ := List.mem_iff_getElem?.mp hs
    rw [List.getElem?_take] at hj
    by_cases hlt : j < 9
    · rw [if_pos hlt, List.getElem?_drop] at hj
      exact ⟨1 + j, by omega, by omega, s, hj, hrs⟩
    · rw [if_neg hlt] at hj
      cases hj

/-- Witness for C6: the theorem applied to two concrete workbooks that agree
on the in-range sheet window. -/
theorem C6_sheet_range_witness :
    search_groups_from_tracker [[]] [] = search_groups_from_tracker [] [] :=
  (C6_sheet_range [[]] [] [] rfl).1

/-- C7 (confirmed): alias resolution picks the first record, in collection
order, whose aliases list contains an entry case-insensitively equal to the
query (exact equality, not substring); it is insensitive to the case of the
query, and changing every record's name field never changes which record is
selected. -/
theorem C7_alias_resolution (groups : List MRecord) (al bl : Str) :
    resolveAlias groups al = groups.find? (aliasHit al)
    ∧ (∀ g, aliasHit al g = true ↔ ∃ a ∈ g.aliases, lowerStr a = lowerStr al)
    ∧ (∀ g, resolveAlias groups al = some g →
        aliasHit al g = true ∧ ∃ pre post, groups = pre ++ g :: post ∧
          ∀ g' ∈ pre, aliasHit al g' = false)
    ∧ (lowerStr al = lowerStr bl →
        resolveAlias groups al = resolveAlias groups bl)
    ∧ (∀ f : Str → Str,
        resolveAlias (groups.map (fun g =>
            MRecord.mk (f g.name) g.aliases g.description g.external_references)) al
          = (resolveAlias groups al).map (fun g =>
            MRecord.mk (f g.name) g.aliases g.description g.external_references)) := by
  refine ⟨head?_filter_eq_find? _ _, fun g => aliasHit_iff al g, ?_, ?_, ?_⟩
  · intro g hg
    rw [resolveAlias, head?_filter_eq_find?] at hg
    obtain ⟨hp, pre, post, hsplit, hpre⟩ := List.find?_eq_some.mp hg
    refine ⟨hp, pre, post, hsplit, fun g' hg' => ?_⟩
    have hx := hpre g' hg'
    simpa using hx
  · intro hl
    unfold resolveAlias
    have hpt : ∀ g ∈ groups, aliasHit al g = aliasHit bl g := by
      intro g _
      unfold aliasHit
      rw [hl]
    rw [List.filter_congr hpt]
  · intro f
    rw [resolveAlias, resolveAlias, head?_filter_eq_find?, head?_filter_eq_find?,
      List.find?_map]
    rfl

/-- Witness for C7: the theorem applied to concrete queries differing only
in letter case. -/
theorem C7_alias_resolution_witness :
    resolveAlias [MRecord.mk ['g'] [['a']] none []] ['A']
      = resolveAlias [MRecord.mk ['g'] [['a']] none []] ['a'] :=
  (C7_alias_resolution [MRecord.mk ['g'] [['a']] none []] ['A'] ['a']).2.2.2.1
    (by decide)

/-- C8 (confirmed): the matching stage deduplicates nothing. A successful
knowledge-base result counts a record once per keyword matching its
description (times its multiplicity in the collection); a tracker sheet
result is the concatenation of the per-keyword filters in keyword order, and
counts a row once per matching keyword; and the keyword loop extends the
accumulated result per keyword in iteration order. -/
theorem C8_no_dedup (groups : List MRecord) (w : Str) (ws kws : List Str)
    (res : List MRecord) (g : MRecord) (d : Str) (data : List TRow) (r : TRow) :
    (mitreMatches groups kws = Except.ok res → g.description = some d →
      res.count g = (kws.countP (fun k => containsCI k d)) * groups.count g)
    ∧ (∀ hits rest, maskFilter w data = Except.ok hits →
        sheetSearch data ws = Except.ok rest →
        sheetSearch data (w :: ws) = Except.ok (hits ++ rest) ∧
          hits = data.filter (rowMatch w))
    ∧ (∀ out, sheetSearch data kws = Except.ok out →
        out.count r = (kws.countP (fun k => rowMatch k r)) * data.count r)
    ∧ (∀ fil rest, filterByDesc w groups = Except.ok fil →
        mitreMatches groups ws = Except.ok rest →
        mitreMatches groups (w :: ws) = Except.ok (fil ++ rest)) := by
  refine ⟨?_, ?_, fun out hout => sheetSearch_ok_count hout r,
    fun fil rest hf hm => mitreMatches_cons_eq hf hm⟩
  · intro h hd
    rw [mitreMatches_ok_count h g]
    have hfun : (fun k => descBool k g) = (fun k => containsCI k d) := by
      funext k
      simp [descBool, hd]
    rw [hfun]
  · intro hits rest hf hs
    exact ⟨sheetSearch_cons_eq hf hs, maskFilter_ok_eq hf⟩

/-- Witness for C8: the count formula applied to a concrete one-record
collection and the single keyword its description contains. -/
theorem C8_no_dedup_witness :
    [MRecord.mk ['a'] [] (some ['x']) []].count (MRecord.mk ['a'] [] (some ['x']) [])
      = ([['x']].countP (fun k => containsCI k ['x']))
          * [MRecord.mk ['a'] [] (some ['x']) []].count
              (MRecord.mk ['a'] [] (some ['x']) []) :=
  (C8_no_dedup [MRecord.mk ['a'] [] (some ['x']) []] [] [] [['x']]
      [MRecord.mk ['a'] [] (some ['x']) []] (MRecord.mk ['a'] [] (some ['x']) [])
      ['x'] [] (TRow.mk none none none none)).1 rfl rfl

/-- C10 (confirmed): splitting the empty user input on commas yields the
single empty keyword, the empty keyword matches every record whose searched
field is present, and such a search reports the entire record collection
rather than nothing. -/
theorem C10_empty_keyword (groups : List MRecord) (r : TRow) (s : Str)
    (h : ∀ g ∈ groups, g.description ≠ none) :
    parseKeywordArg [] = [[]]
    ∧ mitreMatches groups [[]] = Except.ok groups
    ∧ (groups ≠ [] →
        search_groups_from_mitre groups (parseKeywordArg [])
          = MitreOutcome.report groups)
    ∧ (r.targets = some s → rowMatch [] r = true) := by
  have hfil : List.filter (descBool []) groups = groups := by
    rw [List.filter_eq_self]
    intro g hg
    cases hd : g.description with
    | none => exact absurd hd (h g hg)
    | some d => simp [descBool, hd, containsCI, lowerStr, inStr_nil]
  have hf : filterByDesc [] groups = Except.ok groups := by
    rw [filterByDesc_ok_of_all h, hfil]
  have hmm : mitreMatches groups [[]] = Except.ok groups := by
    have hstep := mitreMatches_cons_eq hf (rfl : mitreMatches groups [] = Except.ok [])
    rwa [List.append_nil] at hstep
  refine ⟨rfl, hmm, ?_, ?_⟩
  · intro hne
    show search_groups_from_mitre groups [[]] = MitreOutcome.report groups
    unfold search_groups_from_mitre
    rw [hmm]
    have hres : groups.isEmpty = false := by
      cases groups with
      | nil => exact absurd rfl hne
      | cons a l => rfl
    simp [hres]
  · intro ht
    cases hc : r.comment with
    | none =>
      simp [rowMatch, rowMask, cellMask, orMask, ht, hc, containsCI, lowerStr,
        inStr_nil]
    | some c =>
      simp [rowMatch, rowMask, cellMask, orMask, ht, hc, containsCI, lowerStr,
        inStr_nil]

/-- Witness for C10: the theorem applied to a concrete one-record
collection, showing the empty keyword returns the whole collection. -/
theorem C10_empty_keyword_witness :
    mitreMatches [MRecord.mk ['a'] [] (some ['x']) []] [[]]
      = Except.ok [MRecord.mk ['a'] [] (some ['x']) []] :=
  (C10_empty_keyword [MRecord.mk ['a'] [] (some ['x']) []]
      (TRow.mk none none none none) [] (by decide)).2.1
